import Mathlib

/-!
Verification development for the Poly-Mind-MCP Polymarket indexer.

This file shallowly embeds the parts of the repository that the verified
claims are about: the conditional-token identifier derivation
(`src/ctf/derive.py` and `src/market_decoder.py`), the OrderFilled log
decoder (`src/trade_decoder.py`), and the indexer's storage / checkpoint
logic (`src/indexer/run.py` together with the schema in `src/db/schema.py`).

Modelling conventions:
* Python `str` values are `List Char`; Python `bytes` values are `List Nat`
  with entries below 256.
* Python exceptions are modelled with `Option`/`Except PyErr`: an operation
  that can raise returns `none`/`.error`, and a `try/except` block in the
  source becomes a `match` on that result.
* `Web3.keccak` is the executable Keccak-256 implemented below.  Its result
  is a `HexBytes` value whose `.hex()` method returns the lowercase digest
  WITHOUT a `0x` prefix.  This is the behaviour of `hexbytes >= 1.0`
  (`bytes.hex` semantics), and it is the behaviour the repository's own
  tests pin: `tests/test_market_decoder.py` asserts
  `len(positions.collection_id_yes) == 66` for the output of
  `src/ctf/derive.py`, which itself prepends the `"0x"`.
* Machine integers are `Nat` with explicit `% 2^64` masking inside Keccak.
-/

set_option maxRecDepth 100000
set_option maxHeartbeats 4000000

attribute [local semireducible] Rat.mul Rat.add Rat.sub Rat.inv

namespace PolyMindSpec

/-- The 8-bit LFSR of the Keccak specification (polynomial
x^8 + x^6 + x^5 + x^4 + 1), iterated `t` times from 1; its low bit is the
round-constant bit rc(t). -/
def keccakLfsr : Nat → Nat
  | 0 => 1
  | t + 1 =>
      let r := keccakLfsr t * 2
      if 256 ≤ r then (r ^^^ 0x71) % 256 else r

/-- Round constants of the 24 rounds of Keccak-f[1600], generated from the
LFSR as in the specification: bit `2^j - 1` of `RC[i]` is `rc(7i + j)`.
(Validated against the standard test vectors below.) -/
def keccakRC : List Nat :=
  (List.range 24).map fun i =>
    (List.range 7).foldl
      (fun acc j => acc ||| (keccakLfsr (7 * i + j) % 2) <<< (2 ^ j - 1)) 0

/-- Rotation offset of lane `x + 5*y` in the rho step of Keccak-f[1600],
generated by the specification's recurrence: starting from lane (1,0),
step `t` rotates by `(t+1)(t+2)/2 mod 64` and moves to `(y, 2x+3y mod 5)`;
lane (0,0) is not rotated. -/
def keccakRot : List Nat :=
  let walk :=
    (List.range 24).foldl
      (fun (acc : (Nat × Nat) × List ((Nat × Nat) × Nat)) t =>
        ((acc.1.2, (2 * acc.1.1 + 3 * acc.1.2) % 5),
          (acc.1, ((t + 1) * (t + 2) / 2) % 64) :: acc.2))
      ((1, 0), [])
  (List.range 25).map fun i =>
    (((walk.2.find? fun e => e.1.1 == i % 5 && e.1.2 == i / 5).map fun e => e.2).getD 0)

/-- Rotate a 64-bit word (a `Nat` below `2^64`) left by `n` bits. -/
def rotl64 (x n : Nat) : Nat :=
  ((x <<< n) % 2 ^ 64) ||| (x >>> (64 - n))

/-- Theta step of Keccak-f[1600] on a 25-lane state. -/
def keccakTheta (a : List Nat) : List Nat :=
  let c := (List.range 5).map fun x =>
    a.getD x 0 ^^^ a.getD (x + 5) 0 ^^^ a.getD (x + 10) 0 ^^^
      a.getD (x + 15) 0 ^^^ a.getD (x + 20) 0
  let d := (List.range 5).map fun x =>
    c.getD ((x + 4) % 5) 0 ^^^ rotl64 (c.getD ((x + 1) % 5) 0) 1
  (List.range 25).map fun i => a.getD i 0 ^^^ d.getD (i % 5) 0

/-- Combined rho and pi steps: lane `(x, y)` lands, rotated, in `(y, 2x+3y)`. -/
def keccakRhoPi (a : List Nat) : List Nat :=
  (List.range 25).map fun j =>
    let src := (j % 5 + 3 * (j / 5)) % 5 + 5 * (j % 5)
    rotl64 (a.getD src 0) (keccakRot.getD src 0)

/-- Chi step of Keccak-f[1600]. -/
def keccakChi (a : List Nat) : List Nat :=
  (List.range 25).map fun j =>
    let row := 5 * (j / 5)
    a.getD j 0 ^^^
      ((a.getD (row + (j % 5 + 1) % 5) 0 ^^^ (2 ^ 64 - 1)) &&&
        a.getD (row + (j % 5 + 2) % 5) 0)

/-- One round of Keccak-f[1600]: theta, rho, pi, chi, iota. -/
def keccakRound (a : List Nat) (rc : Nat) : List Nat :=
  match keccakChi (keccakRhoPi (keccakTheta a)) with
  | [] => []
  | h :: t => (h ^^^ rc) :: t

/-- The full Keccak-f[1600] permutation (24 rounds). -/
def keccakF (a : List Nat) : List Nat :=
  keccakRC.foldl keccakRound a

/-- Little-endian byte decomposition of a 64-bit lane. -/
def leBytes8 (n : Nat) : List Nat :=
  (List.range 8).map fun k => n / 256 ^ k % 256

/-- Little-endian value of a byte list. -/
def leVal (bs : List Nat) : Nat :=
  bs.foldr (fun b acc => b + 256 * acc) 0

/-- Absorb one 136-byte block into the sponge state. -/
def keccakAbsorbBlock (st block : List Nat) : List Nat :=
  let lanes := (List.range 17).map fun i => leVal ((block.drop (8 * i)).take 8)
  keccakF ((List.range 25).map fun i => st.getD i 0 ^^^ lanes.getD i 0)

/-- Absorb a padded message, 136 bytes at a time; structurally recursive
on a fuel bound so that the kernel can evaluate it (the fuel below is the
message length, which bounds the number of blocks). -/
def keccakAbsorbAux : Nat → List Nat → List Nat → List Nat
  | _, st, [] => st
  | 0, st, _ :: _ => st
  | fuel + 1, st, b :: rest =>
      keccakAbsorbAux fuel (keccakAbsorbBlock st ((b :: rest).take 136)) ((b :: rest).drop 136)

/-- Absorb a padded message, 136 bytes at a time. -/
def keccakAbsorb (st bs : List Nat) : List Nat :=
  keccakAbsorbAux bs.length st bs

/-- Multi-rate padding of Keccak (pad10*1 with domain bits 0x01/0x80). -/
def keccakPad (msg : List Nat) : List Nat :=
  let padLen := 136 - msg.length % 136
  msg ++ (if padLen = 1 then [0x81] else 0x01 :: (List.replicate (padLen - 2) 0 ++ [0x80]))

/-- Keccak-256 of a byte string: the hash used by the EVM for identifier
derivation (`Web3.keccak`). -/
def keccak256 (msg : List Nat) : List Nat :=
  let st := keccakAbsorb (List.replicate 25 0) (keccakPad msg)
  (((List.range 4).map fun i => leBytes8 (st.getD i 0))).flatten

/-- Lowercase hex character of a nibble. -/
def hexDigitChar (n : Nat) : Char :=
  if n < 10 then Char.ofNat (48 + n) else Char.ofNat (87 + n)

/-- Lowercase hex rendering of a byte string, two characters per byte:
`bytes.hex()` and (for `hexbytes >= 1.0`) `HexBytes.hex()`. -/
def hexOfBytes (bs : List Nat) : List Char :=
  (bs.map fun b => [hexDigitChar (b / 16), hexDigitChar (b % 16)]).flatten

/-- Numeric value of one hex digit, accepting both cases
(`bytes.fromhex` / `int(_, 16)` digit handling). -/
def hexDigitVal? (c : Char) : Option Nat :=
  if 48 ≤ c.toNat ∧ c.toNat ≤ 57 then some (c.toNat - 48)
  else if 97 ≤ c.toNat ∧ c.toNat ≤ 102 then some (c.toNat - 87)
  else if 65 ≤ c.toNat ∧ c.toNat ≤ 70 then some (c.toNat - 55)
  else none

/-- Python `bytes.fromhex`: fails (`ValueError`) on odd length or any
non-hex character.  (Whitespace skipping is omitted: no input in the
modelled code contains whitespace.) -/
def bytesFromHex? : List Char → Option (List Nat)
  | [] => some []
  | [_] => none
  | c1 :: c2 :: rest => do
      let h ← hexDigitVal? c1
      let l ← hexDigitVal? c2
      let bs ← bytesFromHex? rest
      pure ((16 * h + l) :: bs)

/-- Python `int.to_bytes(w, byteorder='big')` (the caller guarantees
`n < 256^w`; the embedding callers check this explicitly). -/
def beBytes : Nat → Nat → List Nat
  | 0, _ => []
  | w + 1, n => (n / 256 ^ w) % 256 :: beBytes w n

/-- Big-endian value of a byte string. -/
def beVal : List Nat → Nat
  | [] => 0
  | b :: t => b * 256 ^ t.length + beVal t

/-- A byte string: every entry is below 256. -/
def IsBytes (bs : List Nat) : Prop := ∀ b ∈ bs, b < 256

instance (bs : List Nat) : Decidable (IsBytes bs) := by
  unfold IsBytes; infer_instance

/-- Python exceptions that the modelled code can raise. -/
inductive PyErr where
  | valueError
  | overflowError
  | attributeError
  | operationalError
deriving DecidableEq

instance {ε α : Type} [DecidableEq ε] [DecidableEq α] : DecidableEq (Except ε α) :=
  fun x y =>
    match x, y with
    | .ok a, .ok b => if h : a = b then isTrue (by rw [h]) else isFalse (by simp [h])
    | .error a, .error b => if h : a = b then isTrue (by rw [h]) else isFalse (by simp [h])
    | .ok _, .error _ => isFalse (by simp)
    | .error _, .ok _ => isFalse (by simp)

/-- Interpret a partial operation's result, raising `e` on failure. -/
def liftOpt (o : Option α) (e : PyErr) : Except PyErr α :=
  match o with
  | some a => .ok a
  | none => .error e

/-- Python `str.lower` on one character, for the ASCII range the modelled
strings live in. -/
def pyToLower (c : Char) : Char :=
  if 65 ≤ c.toNat ∧ c.toNat ≤ 90 then Char.ofNat (c.toNat + 32) else c

/-- Python `str.upper` on one ASCII character. -/
def pyToUpper (c : Char) : Char :=
  if 97 ≤ c.toNat ∧ c.toNat ≤ 122 then Char.ofNat (c.toNat - 32) else c

/-- The constant `"0x" + "0" * 64` (`PARENT_COLLECTION_ID` in both
`src/ctf/derive.py` and `src/market_decoder.py`). -/
def parentCollectionId : List Char := '0' :: 'x' :: List.replicate 64 '0'

/-- The `USDC_ADDRESS` constant of `MarketDecoder` and `TradeDecoder`. -/
def usdcAddress : List Char := "0x2791Bca1f2de4661ED88A30C99A7a9449Aa84174".data

/-- The 20 collateral-token address bytes, `bytes.fromhex(USDC_ADDRESS[2:])`. -/
def usdcBytes : List Nat := (bytesFromHex? (usdcAddress.drop 2)).getD []

/-- `src/ctf/derive.py::_calculate_collection_id`.  There is no `try/except`
here, so `bytes.fromhex` failures propagate as exceptions.  Note that the
digest hex is unprefixed, so prepending `"0x"` yields a well-formed id. -/
def ctfCalculateCollectionId (parent conditionId : List Char) (indexSet : Nat) :
    Except PyErr (List Char) := do
  let p ← liftOpt (bytesFromHex? (parent.drop 2)) .valueError
  let c ← liftOpt (bytesFromHex? (conditionId.drop 2)) .valueError
  let ib ← if indexSet < 2 ^ 256 then pure (beBytes 32 indexSet) else
    Except.error .overflowError
  pure ('0' :: 'x' :: hexOfBytes (keccak256 (p ++ c ++ ib)))

/-- `src/ctf/derive.py::_calculate_position_id`. -/
def ctfCalculatePositionId (collateralToken collectionId : List Char) :
    Except PyErr (List Char) := do
  let a ← liftOpt (bytesFromHex? (collateralToken.drop 2)) .valueError
  let c ← liftOpt (bytesFromHex? (collectionId.drop 2)) .valueError
  pure ('0' :: 'x' :: hexOfBytes (keccak256 (a ++ c)))

/-- Result record of `derive_binary_positions`. -/
structure BinaryPositions where
  positionYes : List Char
  positionNo : List Char
  collectionIdYes : List Char
  collectionIdNo : List Char
deriving DecidableEq

/-- `src/ctf/derive.py::derive_binary_positions`.  The `oracle` and
`question_id` arguments are accepted and unused, exactly as in the source. -/
def deriveBinaryPositions (oracle questionId conditionId collateralToken : List Char) :
    Except PyErr BinaryPositions :=
  let _ := oracle
  let _ := questionId
  do
    let cy ← ctfCalculateCollectionId parentCollectionId conditionId 1
    let cn ← ctfCalculateCollectionId parentCollectionId conditionId 2
    let py ← ctfCalculatePositionId collateralToken cy
    let pn ← ctfCalculatePositionId collateralToken cn
    pure ⟨py, pn, cy, cn⟩

/-- `src/market_decoder.py::MarketDecoder._calculate_collection_id`.  The
body is wrapped in `try/except` returning `"0x"` on any failure.  Note the
`[2:]` applied to the (unprefixed) digest hex: it drops the first two hex
characters, i.e. the first byte of the digest. -/
def mdCalculateCollectionId (conditionId : List Char) (indexSet : Nat) : List Char :=
  match bytesFromHex? (parentCollectionId.drop 2), bytesFromHex? (conditionId.drop 2) with
  | some p, some c =>
      if indexSet < 2 ^ 256 then
        '0' :: 'x' :: (hexOfBytes (keccak256 (p ++ c ++ beBytes 32 indexSet))).drop 2
      else ['0', 'x']
  | _, _ => ['0', 'x']

/-- `src/market_decoder.py::MarketDecoder._calculate_token_id`: hashes the
collateral bytes together with `bytes.fromhex(collection_id[2:])` and again
applies `[2:]` to the digest hex; `try/except` returns `"0x"` on failure. -/
def mdCalculateTokenId (conditionId : List Char) (indexSet : Nat) : List Char :=
  let collectionId := mdCalculateCollectionId conditionId indexSet
  match bytesFromHex? (usdcAddress.drop 2), bytesFromHex? (collectionId.drop 2) with
  | some a, some c => '0' :: 'x' :: (hexOfBytes (keccak256 (a ++ c))).drop 2
  | _, _ => ['0', 'x']

/-! Value-level model of Python's `decimal` arithmetic as used by
`TradeDecoder._calculate_price`: the default context has 28 significant
digits and ROUND_HALF_EVEN.  Values are modelled as rationals; a division
result is the exact quotient rounded half-even to 28 significant digits,
and `round(price, 6)` quantizes half-even to exponent `10^-6`, raising
`InvalidOperation` when the quantized coefficient would exceed 28 digits. -/

/-- Number of decimal digits of `n` (0 for 0); `n` must be below `10^400`,
which every quantity in the modelled code is. -/
def digitCount (n : Nat) : Nat :=
  (List.range 400).countP fun k => 10 ^ k ≤ n

/-- The rational `10^e` for an integer exponent. -/
def qpow10 (e : ℤ) : ℚ :=
  if 0 ≤ e then (10 : ℚ) ^ e.toNat else 1 / (10 : ℚ) ^ (-e).toNat

/-- Round a rational to an integer, ties to even (ROUND_HALF_EVEN). -/
def halfEvenRound (q : ℚ) : ℤ :=
  let f := ⌊q⌋
  let r := q - (f : ℚ)
  if r < 1 / 2 then f
  else if 1 / 2 < r then f + 1
  else if f % 2 = 0 then f else f + 1

/-- Round a rational half-even to a multiple of `10^e`. -/
def roundAtExp (q : ℚ) (e : ℤ) : ℚ :=
  (halfEvenRound (q / qpow10 e) : ℚ) * qpow10 e

/-- Adjusted decimal exponent: `floor (log10 |q|)` for nonzero `q`. -/
def decAdjExp (q : ℚ) : ℤ :=
  let g : ℤ := (digitCount q.num.natAbs : ℤ) - (digitCount q.den : ℤ)
  if qpow10 g ≤ |q| then g else g - 1

/-- Division of Python `Decimal` values: exact quotient rounded half-even
to 28 significant digits.  (A zero divisor cannot occur at this function's
call sites: `_calculate_price` guards the token amount and the scale
`10^6` is a constant.) -/
def decDiv (a b : ℚ) : ℚ :=
  if b = 0 then 0
  else
    let exact := a / b
    if exact = 0 then 0 else roundAtExp exact (decAdjExp exact - 27)

/-- Python `round(p, 6)` on a `Decimal`: quantize half-even to exponent
`-6`; `InvalidOperation` (modelled as `none`) when the result's
coefficient would need more than 28 digits. -/
def decQuantize6 (p : ℚ) : Option ℚ :=
  let n := halfEvenRound (p * 10 ^ 6)
  if n.natAbs < 10 ^ 28 then some ((n : ℚ) / 10 ^ 6) else none

/-- `TradeDecoder._calculate_price`: `"0"` on a zero token amount, else
`(usdc_amount / 10^6) / token_amount` in `Decimal` arithmetic, rounded to
6 decimal places; any exception inside the `try` (only the quantize
overflow is reachable) is caught and yields `"0"`.  The source stores the
decimal string; the embedding keeps its numeric value. -/
def calculatePrice (usdcAmount tokenAmount : Nat) : ℚ :=
  if tokenAmount = 0 then 0
  else
    let usdc := decDiv (usdcAmount : ℚ) ((10 : ℚ) ^ 6)
    let p := decDiv usdc (tokenAmount : ℚ)
    match decQuantize6 p with
    | some q => q
    | none => 0

/-! The OrderFilled log decoder (`src/trade_decoder.py`). -/

/-- A raw chain log as the decoder sees it.  `web3` wire values are
modelled as strings (`topics[1].hex() if hasattr(topics[1], 'hex') else
str(topics[1])` therefore takes the `str` branch). -/
structure RawLog where
  address : List Char
  topics : List (List Char)
  data : List Char
  transactionHash : List Char
deriving DecidableEq

/-- The decoded trade record (`Trade` dataclass).  `maker_amount`,
`taker_amount` and `fee` are stored by the source as decimal strings of
integers and `price` as a decimal string; the embedding keeps the numeric
values of those strings. -/
structure Trade where
  txHash : List Char
  logIndex : Nat
  exchange : List Char
  orderHash : List Char
  maker : List Char
  taker : List Char
  makerAssetId : List Char
  takerAssetId : List Char
  makerAmount : Nat
  takerAmount : Nat
  fee : Nat
  price : ℚ
  tokenId : List Char
  side : List Char
deriving DecidableEq

/-- True for a hex digit of either case. -/
def isHexChar (c : Char) : Bool := (hexDigitVal? c).isSome

/-- Nibble `i` of a digest (high nibble first). -/
def nibbleAt (digest : List Nat) (i : Nat) : Nat :=
  if i % 2 = 0 then digest.getD (i / 2) 0 / 16 else digest.getD (i / 2) 0 % 16

/-- EIP-55 mixed-case rendering of a 40-character lowercase hex address:
a hex letter is uppercased when the corresponding nibble of
`keccak256` of the ASCII lowercase address is at least 8. -/
def eip55 (lower : List Char) : List Char :=
  let digest := keccak256 (lower.map Char.toNat)
  ((List.range lower.length).zip lower).map fun p =>
    if 97 ≤ p.2.toNat ∧ p.2.toNat ≤ 102 ∧ 8 ≤ nibbleAt digest p.1 then pyToUpper p.2
    else p.2

/-- `Web3.to_checksum_address` (via `eth_utils`): requires 40 hex
characters after an optional `0x`/`0X`; a mixed-case input must already be
the correct EIP-55 rendering; the result is the checksummed address. -/
def toChecksumAddress? (s : List Char) : Option (List Char) :=
  let unpref := if s.take 2 = ['0', 'x'] ∨ s.take 2 = ['0', 'X'] then s.drop 2 else s
  if unpref.length = 40 ∧ unpref.all isHexChar then
    let lower := unpref.map pyToLower
    let check := eip55 lower
    let mixed := (unpref.any fun c => 65 ≤ c.toNat ∧ c.toNat ≤ 90) ∧
      (unpref.any fun c => 97 ≤ c.toNat ∧ c.toNat ≤ 122)
    if mixed ∧ unpref ≠ check then none else some ('0' :: 'x' :: check)
  else none

/-- Python slice `s[a:b]` (with the usual clamping). -/
def pySlice (s : List Char) (a b : Nat) : List Char := (s.drop a).take (b - a)

/-- Python slice `s[-n:]`. -/
def pyLastN (s : List Char) (n : Nat) : List Char := s.drop (s.length - n)

/-- `TradeDecoder._parse_address`: slice, keep the last 40 characters,
checksum; its own `try/except` turns any failure into `"0x"`. -/
def parseAddress (data : List Char) (start stop : Nat) : List Char :=
  let hexStr := pySlice data start stop
  let addr := '0' :: 'x' :: pyLastN hexStr 40
  match toChecksumAddress? addr with
  | some a => a
  | none => ['0', 'x']

/-- `TradeDecoder._parse_hex`: prepend `"0x"` to a slice (total; the
`except` branch is dead since slicing and concatenation cannot fail). -/
def parseHex (data : List Char) (start stop : Nat) : List Char :=
  '0' :: 'x' :: pySlice data start stop

/-- Hex-digit run of Python `int(s, 16)`: at least one digit, all hex. -/
def parseHexDigits (t : List Char) : Option Nat :=
  if t = [] then none
  else
    t.foldl
      (fun acc c =>
        match acc, hexDigitVal? c with
        | some a, some d => some (16 * a + d)
        | _, _ => none)
      (some 0)

/-- Python `int(s, 16)`: optional `0x`/`0X` prefix, then at least one hex
digit.  (Sign, underscores and whitespace are omitted: no modelled input
contains them.) -/
def parseHexInt? (s : List Char) : Option Nat :=
  if s.take 2 = ['0', 'x'] ∨ s.take 2 = ['0', 'X'] then parseHexDigits (s.drop 2)
  else parseHexDigits s

/-- The all-zero collateral sentinel string `"0x" + "0" * 64`. -/
def usdcSentinel : List Char := '0' :: 'x' :: List.replicate 64 '0'

/-- An OrderFilled data payload laid out exactly at the byte offsets the
decoder slices: maker at `[2:42]`, taker at `[42:82]`, then five 32-byte
big-endian words (asset ids, amounts, fee) at `[82:402]`.  Total length
402. -/
def mkPackedData (m20 t20 : List Char) (ma ta mam tam fee : Nat) : List Char :=
  '0' :: 'x' ::
    (m20 ++ (t20 ++ (hexOfBytes (beBytes 32 ma) ++ (hexOfBytes (beBytes 32 ta) ++
      (hexOfBytes (beBytes 32 mam) ++ (hexOfBytes (beBytes 32 tam) ++
        hexOfBytes (beBytes 32 fee)))))))

/-- An OrderFilled data payload in the layout the decoder's own comment
documents (`data = orderHash(32) + maker(32) + taker(32) + makerAsset(32)
+ takerAsset(32) + makerAmount(32) + takerAmount(32) + fee(32)`): eight
32-byte big-endian words.  Total length 514. -/
def mkWordData (oh mk tk ma ta mam tam fee : Nat) : List Char :=
  '0' :: 'x' ::
    (hexOfBytes (beBytes 32 oh) ++ (hexOfBytes (beBytes 32 mk) ++
      (hexOfBytes (beBytes 32 tk) ++ (hexOfBytes (beBytes 32 ma) ++
        (hexOfBytes (beBytes 32 ta) ++ (hexOfBytes (beBytes 32 mam) ++
          (hexOfBytes (beBytes 32 tam) ++ hexOfBytes (beBytes 32 fee))))))))

/-- The claim-relevant projection of a decoded trade: side, token id,
price, and the decoded integer fields. -/
def tradeView (t : Trade) : List Char × List Char × ℚ × Nat × Nat × Nat :=
  (t.side, t.tokenId, t.price, t.makerAmount, t.takerAmount, t.fee)

/-- Byte value of an `"0x..."` address string (EIP-55 case folded away). -/
def addrValue (s : List Char) : Option (List Nat) :=
  bytesFromHex? ((s.drop 2).map pyToLower)

/-- `TradeDecoder._parse_order_filled_log`: the whole body runs under
`try/except`, so every failing step yields `None`.  Field offsets are the
source's: maker `[2:42]`, taker `[42:82]`, asset ids `[82:146]` and
`[146:210]`, amounts `[210:274]` and `[274:338]`, fee `[338:402]` only
when `len(data) > 402`. -/
def parseOrderFilledLog (txHash : List Char) (logIndex : Nat) (log : RawLog) :
    Option Trade :=
  match toChecksumAddress? log.address with
  | none => none
  | some exchange =>
    if log.topics.length < 2 then none
    else
      let orderHash := log.topics.getD 1 []
      if log.data.length < 290 then none
      else
        let data := log.data
        let maker := parseAddress data 2 42
        let taker := parseAddress data 42 82
        let makerAssetId := parseHex data 82 146
        let takerAssetId := parseHex data 146 210
        match parseHexInt? (parseHex data 210 274), parseHexInt? (parseHex data 274 338),
            (if 402 < data.length then parseHexInt? (parseHex data 338 402) else some 0) with
        | some makerAmount, some takerAmount, some fee =>
          if makerAssetId.map pyToLower = usdcSentinel then
            some
              { txHash := txHash, logIndex := logIndex, exchange := exchange,
                orderHash := orderHash, maker := maker, taker := taker,
                makerAssetId := makerAssetId, takerAssetId := takerAssetId,
                makerAmount := makerAmount, takerAmount := takerAmount, fee := fee,
                price := calculatePrice makerAmount takerAmount,
                tokenId := takerAssetId, side := "BUY".data }
          else if takerAssetId.map pyToLower = usdcSentinel then
            some
              { txHash := txHash, logIndex := logIndex, exchange := exchange,
                orderHash := orderHash, maker := maker, taker := taker,
                makerAssetId := makerAssetId, takerAssetId := takerAssetId,
                makerAmount := makerAmount, takerAmount := takerAmount, fee := fee,
                price := calculatePrice takerAmount makerAmount,
                tokenId := makerAssetId, side := "SELL".data }
          else none
        | _, _, _ => none

/-! The indexer and its storage layer (`src/indexer/run.py` over the
schema created by `src/db/schema.py::init_db`).  SQL is modelled just
deeply enough to capture what decides the claims: each statement carries
the set of column names it references, and referencing a column that the
schema does not define raises `sqlite3.OperationalError`, exactly as the
real engine does. -/

/-- A row of the `trades` table (the columns the claims are about; the
schema declares `UNIQUE(tx_hash, log_index)`).  No code path of
`src/indexer/run.py` ever constructs one. -/
structure TradeRow where
  txHash : List Char
  logIndex : Nat
deriving DecidableEq

/-- A row of the `events` table as `init_db` creates it
(`id, event_id, title, slug, created_at`). -/
structure EventRow where
  eventId : Option (List Char)
deriving DecidableEq

/-- The single `sync_state` row.  `init_db` gives the table the columns
`id`, `last_block`, `last_update` (no `total_events`).  The wall-clock
`last_update` timestamp is immaterial to every claim and is omitted. -/
structure SyncRow where
  lastBlock : Nat
deriving DecidableEq

/-- The database state visible to the indexer. -/
structure DB where
  trades : List TradeRow
  events : List EventRow
  syncState : Option SyncRow
deriving DecidableEq

/-- The database right after `init_db` on a fresh file: empty tables and
no `sync_state` row. -/
def initDb : DB := { trades := [], events := [], syncState := none }

/-- The persisted checkpoint value: the `last_block` of the `sync_state`
row, 0 when no row exists. -/
def lastBlockOf (db : DB) : Nat :=
  match db.syncState with
  | some r => r.lastBlock
  | none => 0

/-- Column names of the `sync_state` table per `init_db`. -/
def syncStateCols : List String := ["id", "last_block", "last_update"]

/-- Column names of the `events` table per `init_db`. -/
def eventsCols : List String := ["id", "event_id", "title", "slug", "created_at"]

/-- Value of a `sync_state` column on a row (only defined columns are ever
read: the select below errors first otherwise). -/
def syncRowVal (r : SyncRow) : String → Nat
  | "id" => 1
  | "last_block" => r.lastBlock
  | _ => 0

/-- `SELECT <cols> FROM sync_state LIMIT 1`: `OperationalError` when a
referenced column does not exist in the schema. -/
def sqlSelectSync (db : DB) (cols : List String) :
    Except PyErr (Option (List Nat)) :=
  if cols.all (fun c => syncStateCols.contains c) then
    .ok (db.syncState.map fun r => cols.map (syncRowVal r))
  else .error .operationalError

/-- `INSERT OR REPLACE INTO sync_state (<cols>) VALUES (...)`:
`OperationalError` when a referenced column does not exist (the values
reach the table only in the success branch). -/
def sqlUpsertSync (db : DB) (cols : List String) (lastBlock : Nat) :
    Except PyErr DB :=
  if cols.all (fun c => syncStateCols.contains c) then
    .ok { db with syncState := some ⟨lastBlock⟩ }
  else .error .operationalError

/-- `INSERT OR IGNORE INTO events (<cols>) VALUES (...)`:
`OperationalError` when a referenced column does not exist in the `events`
table `init_db` creates. -/
def sqlInsertEvents (db : DB) (cols : List String) (eventId : Option (List Char)) :
    Except PyErr DB :=
  if cols.all (fun c => eventsCols.contains c) then
    .ok { db with events := db.events ++ [⟨eventId⟩] }
  else .error .operationalError

/-- Python `trade.get(key)` where `trade` is a `Trade` instance:
`Trade` is a frozen dataclass without a `get` method (the pipeline passes
`TradeDecoder.decode_tx_logs` results straight through), so the attribute
lookup raises `AttributeError`. -/
def tradeDictGet (t : Trade) (key : String) : Except PyErr Unit :=
  let _ := t
  let _ := key
  .error .attributeError

/-- `PolymarketIndexer.get_sync_state`: `SELECT last_block, total_events
FROM sync_state` (but `init_db`'s table has no `total_events` column);
a missing row falls back to `max(current_block - 1000, 0)`; any exception
is caught and yields `(0, 0)`. -/
def getSyncState (db : DB) (currentBlock : Nat) : Nat × Nat :=
  match sqlSelectSync db ["last_block", "total_events"] with
  | .ok (some vals) => (vals.getD 0 0, vals.getD 1 0)
  | .ok none => (currentBlock - 1000, 0)
  | .error _ => (0, 0)

/-- `PolymarketIndexer.update_sync_state`: `INSERT OR REPLACE INTO
sync_state (id, last_block, total_events, last_updated) VALUES ...`; the
exception (the schema has neither `total_events` nor `last_updated`) is
caught and logged, leaving the database unchanged. -/
def updateSyncState (db : DB) (blockNum : Nat) (eventCount : Nat) : DB :=
  let _ := eventCount
  match sqlUpsertSync db ["id", "last_block", "total_events", "last_updated"] blockNum with
  | .ok db' => db'
  | .error _ => db

/-- `PolymarketIndexer.store_trades` on one trade: the parameter tuple is
built from `trade.get('txHash')` etc. before the SQL executes, so the
`AttributeError` fires first; were a dict passed instead, the INSERT
references `events` columns (`tx_hash, event_type, maker, ...`) that the
schema does not define.  Either way the per-trade `except` skips the row. -/
def storeTradesRow (db : DB) (t : Trade) : Except PyErr DB := do
  let _ ← tradeDictGet t "txHash"
  sqlInsertEvents db
    ["tx_hash", "event_type", "maker", "taker", "asset_yes", "asset_no",
     "size", "price", "block_number", "timestamp", "raw_data"] none

/-- `PolymarketIndexer.store_trades`: inserts each trade under a per-trade
`try/except` (failures are logged and skipped), commits, and returns the
number of successfully stored trades. -/
def storeTrades (db : DB) (trades : List Trade) : DB × Nat :=
  trades.foldl
    (fun acc t =>
      match storeTradesRow acc.1 t with
      | .ok db' => (db', acc.2 + 1)
      | .error _ => acc)
    (db, 0)

/-- `PolymarketIndexer.enrich_with_market_info`: per trade,
`trade.get('tokenId')` raises `AttributeError` on the `Trade` dataclass,
the per-trade `except` appends the trade unchanged.  (In the unreachable
success branch the source would look up `markets` by token id and assign
dict keys on the trade.) -/
def enrichWithMarketInfo (db : DB) (trades : List Trade) : List Trade :=
  let _ := db
  trades.map fun t =>
    match tradeDictGet t "tokenId" with
    | .ok _ => t
    | .error _ => t

/-- Read-only view of the chain endpoint: current height, `eth.get_logs`
over a block range (already filtered to the two exchange addresses and the
hardcoded topic, as the node does), and `eth.get_transaction_receipt`
giving the logs of a transaction (`none` for an unknown transaction or a
network failure, both of which the source turns into an empty result). -/
structure ChainView where
  blockNumber : Nat
  getLogs : Nat → Nat → List RawLog
  getReceipt : List Char → Option (List RawLog)

/-- `PolymarketIndexer.fetch_order_filled_logs` (a failing call is a
`ChainView` returning `[]`, matching the source's `except` branch). -/
def fetchOrderFilledLogs (ch : ChainView) (fromBlock toBlock : Nat) : List RawLog :=
  ch.getLogs fromBlock toBlock

/-- `TradeDecoder.decode_tx_logs`: normalize the hash, fetch the receipt,
keep logs whose lowercased address is one of the two exchange contracts,
and decode each with `_parse_order_filled_log`. -/
def decodeTxLogs (ch : ChainView) (txHash : List Char) : List Trade :=
  let txh := if txHash.take 2 = ['0', 'x'] then txHash else '0' :: 'x' :: txHash
  match ch.getReceipt txh with
  | none => []
  | some logs =>
      logs.enum.filterMap fun p =>
        if p.2.address.map pyToLower = "0x4bFb41d5B3570DeFd03C39a9A4D8dE6Bd8B8982E".data.map pyToLower ∨
            p.2.address.map pyToLower = "0xC5d563A36AE78145C45a50134d48A1215220f80a".data.map pyToLower then
          parseOrderFilledLog txh p.1 p.2
        else none

/-- `PolymarketIndexer.process_logs`: re-decode the whole transaction of
each fetched log via `decode_tx_logs`. -/
def processLogs (ch : ChainView) (logs : List RawLog) : List Trade :=
  logs.foldl (fun acc l => acc ++ decodeTxLogs ch l.transactionHash) []

/-- One run of the batch loop of `PolymarketIndexer.run_indexer` (bounded
mode).  Per cycle: fetch logs for `[batch_start, batch_end]`; when any
arrived, decode, enrich and store; then unconditionally
`update_sync_state(batch_end, total_events + total_trades)` and continue
from `batch_end + 1`.  (Every embedded step catches its own exceptions, so
the loop's own `except` branch is unreachable.)  Returns the final
database and the accumulated stored-trade count. -/
def runLoop (ch : ChainView) (db : DB) (batchStart toBlock totalTrades totalEvents : Nat) :
    DB × Nat :=
  if h : batchStart < toBlock then
    let batchEnd := min (batchStart + 1000) toBlock
    let stepResult :=
      if (fetchOrderFilledLogs ch batchStart batchEnd).isEmpty then (db, 0)
      else
        storeTrades db
          (enrichWithMarketInfo db (processLogs ch (fetchOrderFilledLogs ch batchStart batchEnd)))
    let totalTrades' := totalTrades + stepResult.2
    let db2 := updateSyncState stepResult.1 batchEnd (totalEvents + totalTrades')
    runLoop ch db2 (batchEnd + 1) toBlock totalTrades' totalEvents
  else (db, totalTrades)
termination_by toBlock - batchStart
decreasing_by simp; omega

/-- The summary record `run_indexer` returns. -/
structure IndexResult where
  fromBlock : Nat
  toBlock : Nat
  tradesInserted : Nat
deriving DecidableEq

/-- `PolymarketIndexer.run_indexer` in bounded mode: resolve the range
(defaults come from `get_sync_state` and the chain height; note the
source's `total_events, _ = self.get_sync_state()` takes the FIRST
component), run the batch loop, and report the summary. -/
def runIndexer (ch : ChainView) (db : DB) (fromBlock? toBlock? : Option Nat) :
    DB × IndexResult :=
  let fromBlock :=
    match fromBlock? with
    | some f => f
    | none => (getSyncState db ch.blockNumber).1
  let toBlock := toBlock?.getD ch.blockNumber
  let totalEvents := (getSyncState db ch.blockNumber).1
  let r := runLoop ch db fromBlock toBlock 0 totalEvents
  (r.1, ⟨fromBlock, toBlock, r.2⟩)

/-! Supporting lemmas about the byte/hex plumbing. -/

theorem hexDigitVal?_hexDigitChar {n : Nat} (h : n < 16) :
    hexDigitVal? (hexDigitChar n) = some n := by
  interval_cases n <;> rfl

theorem pyToLower_hexDigitChar {n : Nat} (h : n < 16) :
    pyToLower (hexDigitChar n) = hexDigitChar n := by
  interval_cases n <;> rfl

theorem hexOfBytes_cons (b : Nat) (bs : List Nat) :
    hexOfBytes (b :: bs) =
      hexDigitChar (b / 16) :: hexDigitChar (b % 16) :: hexOfBytes bs := by
  simp [hexOfBytes]

theorem hexOfBytes_append (a b : List Nat) :
    hexOfBytes (a ++ b) = hexOfBytes a ++ hexOfBytes b := by
  simp [hexOfBytes]

theorem hexOfBytes_length (bs : List Nat) : (hexOfBytes bs).length = 2 * bs.length := by
  induction bs with
  | nil => rfl
  | cons b t ih => rw [hexOfBytes_cons]; simp [ih]; omega

theorem map_pyToLower_hexOfBytes (bs : List Nat) (h : IsBytes bs) :
    (hexOfBytes bs).map pyToLower = hexOfBytes bs := by
  induction bs with
  | nil => rfl
  | cons b t ih =>
      have hb : b < 256 := h b (by simp)
      rw [hexOfBytes_cons]
      simp [pyToLower_hexDigitChar (show b / 16 < 16 by omega),
        pyToLower_hexDigitChar (show b % 16 < 16 by omega),
        ih (fun x hx => h x (by simp [hx]))]

theorem bytesFromHex?_hexOfBytes (bs : List Nat) (h : IsBytes bs) :
    bytesFromHex? (hexOfBytes bs) = some bs := by
  induction bs with
  | nil => rfl
  | cons b t ih =>
      have hb : b < 256 := h b (by simp)
      rw [hexOfBytes_cons]
      simp [bytesFromHex?, hexDigitVal?_hexDigitChar (show b / 16 < 16 by omega),
        hexDigitVal?_hexDigitChar (show b % 16 < 16 by omega),
        ih (fun x hx => h x (by simp [hx]))]
      omega

theorem beBytes_length (w n : Nat) : (beBytes w n).length = w := by
  induction w generalizing n with
  | zero => rfl
  | succ w ih => simp [beBytes, ih]

theorem beBytes_isBytes (w n : Nat) : IsBytes (beBytes w n) := by
  induction w generalizing n with
  | zero => intro b hb; simp [beBytes] at hb
  | succ w ih =>
      intro b hb
      simp only [beBytes, List.mem_cons] at hb
      rcases hb with h | h
      · omega
      · exact ih n b h

theorem beVal_beBytes (w n : Nat) : beVal (beBytes w n) = n % 256 ^ w := by
  induction w generalizing n with
  | zero => simp [beBytes, beVal, Nat.mod_one]
  | succ w ih =>
      rw [beBytes, beVal, beBytes_length, ih, pow_succ, Nat.mod_mul]
      ring

theorem beBytes_zero (w : Nat) : beBytes w 0 = List.replicate w 0 := by
  induction w with
  | zero => rfl
  | succ w ih => simp [beBytes, ih, List.replicate_succ]

theorem keccak256_blocks (msg : List Nat) :
    keccak256 msg =
      leBytes8 ((keccakAbsorb (List.replicate 25 0) (keccakPad msg)).getD 0 0) ++
        (leBytes8 ((keccakAbsorb (List.replicate 25 0) (keccakPad msg)).getD 1 0) ++
          (leBytes8 ((keccakAbsorb (List.replicate 25 0) (keccakPad msg)).getD 2 0) ++
            (leBytes8 ((keccakAbsorb (List.replicate 25 0) (keccakPad msg)).getD 3 0) ++ []))) :=
  rfl

theorem keccak256_length (msg : List Nat) : (keccak256 msg).length = 32 := by
  rw [keccak256_blocks]
  simp [leBytes8]

theorem keccak256_empty_vector :
    hexOfBytes (keccak256 []) =
      "c5d2460186f7233c927e7db2dcc703c0e500b653ca82273b7bfad8045d85a470".data := by
  decide

theorem keccak256_abc_vector :
    hexOfBytes (keccak256 [97, 98, 99]) =
      "4e03657aea45a94fc7d47ba826c8d667c0d1e6e33a64a036ec44f58fa12d6c45".data := by
  decide

theorem keccak256_isBytes (msg : List Nat) : IsBytes (keccak256 msg) := by
  intro b hb
  rw [keccak256_blocks] at hb
  simp only [leBytes8, List.append_nil, List.mem_append, List.mem_map, List.mem_range] at hb
  rcases hb with ⟨k, _, rfl⟩ | ⟨k, _, rfl⟩ | ⟨k, _, rfl⟩ | ⟨k, _, rfl⟩ <;>
    exact Nat.mod_lt _ (by norm_num)

theorem foldl_hexDigits (bs : List Nat) (h : IsBytes bs) (acc : Nat) :
    (hexOfBytes bs).foldl
      (fun acc c =>
        match acc, hexDigitVal? c with
        | some a, some d => some (16 * a + d)
        | _, _ => none)
      (some acc) = some (acc * 256 ^ bs.length + beVal bs) := by
  induction bs generalizing acc with
  | nil => simp [hexOfBytes, beVal]
  | cons b t ih =>
      have hb : b < 256 := h b (by simp)
      rw [hexOfBytes_cons]
      simp only [List.foldl_cons,
        hexDigitVal?_hexDigitChar (show b / 16 < 16 by omega),
        hexDigitVal?_hexDigitChar (show b % 16 < 16 by omega)]
      rw [ih (fun x hx => h x (by simp [hx]))]
      have hq : 16 * (16 * acc + b / 16) + b % 16 = 256 * acc + b := by omega
      rw [hq, beVal, List.length_cons, pow_succ]
      ring_nf

theorem hexOfBytes_ne_nil {bs : List Nat} (h : bs ≠ []) : hexOfBytes bs ≠ [] := by
  cases bs with
  | nil => exact absurd rfl h
  | cons b t => rw [hexOfBytes_cons]; simp

theorem parseHexInt?_hexOfBytes (bs : List Nat) (h : IsBytes bs) (hne : bs ≠ []) :
    parseHexInt? ('0' :: 'x' :: hexOfBytes bs) = some (beVal bs) := by
  unfold parseHexInt?
  have hp : List.take 2 ('0' :: 'x' :: hexOfBytes bs) = ['0', 'x'] ∨
      List.take 2 ('0' :: 'x' :: hexOfBytes bs) = ['0', 'X'] := Or.inl rfl
  rw [if_pos hp]
  show parseHexDigits (hexOfBytes bs) = some (beVal bs)
  unfold parseHexDigits
  rw [if_neg (hexOfBytes_ne_nil hne), foldl_hexDigits bs h 0]
  simp

theorem pySlice_cons2 (a b : Char) (t : List Char) (i j : Nat) :
    pySlice (a :: b :: t) (i + 2) (j + 2) = pySlice t i j := by
  simp only [pySlice, List.drop_succ_cons]
  congr 1
  omega

theorem pySlice_here (f rest : List Char) (n : Nat) (h : f.length = n) :
    pySlice (f ++ rest) 0 n = f := by
  simp [pySlice, List.take_left' h]

theorem pySlice_skip (f rest : List Char) (n i j : Nat) (h : f.length = n) :
    pySlice (f ++ rest) (n + i) (n + j) = pySlice rest i j := by
  simp only [pySlice]
  rw [show n + i = f.length + i by omega, List.drop_append]
  congr 1
  omega

theorem sentinel_iff (n : Nat) (h : n < 2 ^ 256) :
    (('0' :: 'x' :: hexOfBytes (beBytes 32 n)).map pyToLower = usdcSentinel) ↔ n = 0 := by
  constructor
  · intro heq
    simp only [usdcSentinel, List.map_cons, List.cons.injEq] at heq
    have h2 : (hexOfBytes (beBytes 32 n)).map pyToLower = List.replicate 64 '0' := heq.2.2
    rw [map_pyToLower_hexOfBytes _ (beBytes_isBytes 32 n)] at h2
    have h3 := congrArg bytesFromHex? h2
    rw [bytesFromHex?_hexOfBytes _ (beBytes_isBytes 32 n)] at h3
    have hz : bytesFromHex? (List.replicate 64 '0') = some (List.replicate 32 0) := by decide
    rw [hz] at h3
    have h4 : beBytes 32 n = List.replicate 32 0 := Option.some.inj h3
    have h5 := congrArg beVal h4
    rw [beVal_beBytes] at h5
    have h6 : beVal (List.replicate 32 0) = 0 := by decide
    rw [h6, show (256 : Nat) ^ 32 = 2 ^ 256 by norm_num, Nat.mod_eq_of_lt h] at h5
    exact h5
  · rintro rfl
    rw [beBytes_zero]
    decide

theorem liftOpt_some {α : Type} (a : α) (e : PyErr) : liftOpt (some a) e = .ok a := rfl

theorem exceptBind_ok {ε α β : Type} (a : α) (f : α → Except ε β) :
    ((Except.ok a : Except ε α) >>= f) = f a := rfl

theorem exceptPure {ε α : Type} (a : α) : (pure a : Except ε α) = .ok a := rfl

theorem ctfCalculateCollectionId_spec (cond : List Nat) (h : IsBytes cond)
    (ix : Nat) (hix : ix < 2 ^ 256) :
    ctfCalculateCollectionId parentCollectionId ('0' :: 'x' :: hexOfBytes cond) ix =
      .ok ('0' :: 'x' :: hexOfBytes (keccak256 (List.replicate 32 0 ++ cond ++ beBytes 32 ix))) := by
  unfold ctfCalculateCollectionId
  have hp : bytesFromHex? (parentCollectionId.drop 2) = some (List.replicate 32 0) := by
    decide
  simp only [List.drop_succ_cons, List.drop_zero, hp, bytesFromHex?_hexOfBytes cond h,
    liftOpt_some, exceptBind_ok, if_pos hix, exceptPure, List.append_assoc]

theorem ctfCalculatePositionId_spec (coll colId : List Nat) (h1 : IsBytes coll)
    (h2 : IsBytes colId) :
    ctfCalculatePositionId ('0' :: 'x' :: hexOfBytes coll) ('0' :: 'x' :: hexOfBytes colId) =
      .ok ('0' :: 'x' :: hexOfBytes (keccak256 (coll ++ colId))) := by
  unfold ctfCalculatePositionId
  simp only [List.drop_succ_cons, List.drop_zero, bytesFromHex?_hexOfBytes coll h1,
    bytesFromHex?_hexOfBytes colId h2, liftOpt_some, exceptBind_ok, exceptPure]

/-- C1: For every 32-byte condition id (and 20-byte collateral address),
the collection id that `src/ctf/derive.py` derives is exactly
keccak256 of the 32-byte zero parent collection id, the 32-byte condition
id, and the index set as a 32-byte big-endian word, and the position id is
exactly keccak256 of the 20-byte collateral address followed by the
32-byte collection id — with no other hash, padding or endianness.
(Amended: this holds for `src/ctf/derive.py`; the counterexample shows
`MarketDecoder._calculate_token_id` instead drops the first byte of each
digest, because it applies `[2:]` to the unprefixed digest hex.) -/
theorem claim_C1_derive_ids_are_exact_keccak (oracle questionId : List Char)
    (cond coll : List Nat) (hc : IsBytes cond) (hcl : cond.length = 32)
    (hk : IsBytes coll) (hkl : coll.length = 20) :
    deriveBinaryPositions oracle questionId ('0' :: 'x' :: hexOfBytes cond)
        ('0' :: 'x' :: hexOfBytes coll) =
      .ok
        { positionYes := '0' :: 'x' :: hexOfBytes (keccak256 (coll ++
            keccak256 (List.replicate 32 0 ++ cond ++ beBytes 32 1))),
          positionNo := '0' :: 'x' :: hexOfBytes (keccak256 (coll ++
            keccak256 (List.replicate 32 0 ++ cond ++ beBytes 32 2))),
          collectionIdYes := '0' :: 'x' :: hexOfBytes (keccak256
            (List.replicate 32 0 ++ cond ++ beBytes 32 1)),
          collectionIdNo := '0' :: 'x' :: hexOfBytes (keccak256
            (List.replicate 32 0 ++ cond ++ beBytes 32 2)) } := by
  have _ := hcl
  have _ := hkl
  unfold deriveBinaryPositions
  rw [ctfCalculateCollectionId_spec cond hc 1 (by norm_num)]
  simp only [exceptBind_ok]
  rw [ctfCalculateCollectionId_spec cond hc 2 (by norm_num)]
  simp only [exceptBind_ok]
  rw [ctfCalculatePositionId_spec coll _ hk (keccak256_isBytes _)]
  simp only [exceptBind_ok]
  rw [ctfCalculatePositionId_spec coll _ hk (keccak256_isBytes _)]
  simp only [exceptBind_ok, exceptPure, List.append_assoc]

/-- Witness for C1 at a concrete 32-byte condition id (`0xaa...aa`) and a
concrete 20-byte collateral address. -/
theorem claim_C1_witness :
    deriveBinaryPositions [] [] ('0' :: 'x' :: hexOfBytes (List.replicate 32 170))
        ('0' :: 'x' :: hexOfBytes (List.replicate 20 39)) =
      .ok
        { positionYes := '0' :: 'x' :: hexOfBytes (keccak256 (List.replicate 20 39 ++
            keccak256 (List.replicate 32 0 ++ List.replicate 32 170 ++ beBytes 32 1))),
          positionNo := '0' :: 'x' :: hexOfBytes (keccak256 (List.replicate 20 39 ++
            keccak256 (List.replicate 32 0 ++ List.replicate 32 170 ++ beBytes 32 2))),
          collectionIdYes := '0' :: 'x' :: hexOfBytes (keccak256
            (List.replicate 32 0 ++ List.replicate 32 170 ++ beBytes 32 1)),
          collectionIdNo := '0' :: 'x' :: hexOfBytes (keccak256
            (List.replicate 32 0 ++ List.replicate 32 170 ++ beBytes 32 2)) } :=
  claim_C1_derive_ids_are_exact_keccak [] [] (List.replicate 32 170) (List.replicate 20 39)
    (by decide) (by decide) (by decide) (by decide)

/-- C1 counterexample: on the 32-byte condition id `0xaa...aa` with index
set 1, `MarketDecoder._calculate_token_id` does not equal keccak256 of the
20-byte collateral address followed by the 32-byte collection id
`keccak256(zero32 ++ cond ++ be32(1))` — the `[2:]` it applies to each
unprefixed digest hex truncates one byte at both stages. -/
theorem claim_C1_counterexample :
    mdCalculateTokenId ('0' :: 'x' :: List.replicate 64 'a') 1 ≠
      '0' :: 'x' :: hexOfBytes (keccak256 (usdcBytes ++
        keccak256 (List.replicate 32 0 ++ List.replicate 32 170 ++ beBytes 32 1))) := by
  intro heq
  have hlen := congrArg List.length heq
  have hL : (mdCalculateTokenId ('0' :: 'x' :: List.replicate 64 'a') 1).length = 64 := by
    decide
  rw [hL] at hlen
  simp [hexOfBytes_length, keccak256_length] at hlen

/-- C9 counterexample: on the malformed condition id `"0x" + "z" * 64`,
`MarketDecoder._calculate_token_id` returns the same token id for index
set 1 (YES) and index set 2 (NO): its exception handler collapses both
collection ids to `"0x"`, after which the two derivations hash identical
bytes. -/
theorem claim_C9_counterexample :
    mdCalculateTokenId ('0' :: 'x' :: List.replicate 64 'z') 1 =
      mdCalculateTokenId ('0' :: 'x' :: List.replicate 64 'z') 2 := by
  have hz : bytesFromHex? (('0' :: 'x' :: List.replicate 64 'z').drop 2) = none := by decide
  have hp : bytesFromHex? (parentCollectionId.drop 2) = some (List.replicate 32 0) := by
    decide
  have h1 : mdCalculateCollectionId ('0' :: 'x' :: List.replicate 64 'z') 1 = ['0', 'x'] := by
    unfold mdCalculateCollectionId
    rw [hp, hz]
  have h2 : mdCalculateCollectionId ('0' :: 'x' :: List.replicate 64 'z') 2 = ['0', 'x'] := by
    unfold mdCalculateCollectionId
    rw [hp, hz]
  simp only [mdCalculateTokenId, h1, h2]

/-- C9 (amended): position-id derivation is deterministic, and for every
well-formed condition id the YES and NO derivations hash distinct
preimages (the 32-byte index-set words differ); for the repository's own
test condition id (`0xaa...aa`, `tests/test_market_decoder.py`) the two
derived position ids are in fact distinct.  (A malformed condition id,
however, collapses both index sets to the same fallback value in
`MarketDecoder` — see the counterexample.) -/
theorem claim_C9_preimages_differ_and_golden_positions_distinct :
    (∀ cond : List Nat,
        List.replicate 32 0 ++ cond ++ beBytes 32 1 ≠
          List.replicate 32 0 ++ cond ++ beBytes 32 2) ∧
      (deriveBinaryPositions [] [] ('0' :: 'x' :: List.replicate 64 'a')
            usdcAddress).map BinaryPositions.positionYes ≠
        (deriveBinaryPositions [] [] ('0' :: 'x' :: List.replicate 64 'a')
            usdcAddress).map BinaryPositions.positionNo := by
  constructor
  · intro cond heq
    have h := List.append_cancel_left heq
    have h2 := congrArg beVal h
    rw [beVal_beBytes, beVal_beBytes] at h2
    norm_num at h2
  · decide

theorem pySlice_field (pre f post : List Char) (a b : Nat)
    (ha : pre.length = a) (hf : a + f.length = b) :
    pySlice (pre ++ (f ++ post)) a b = f := by
  simp only [pySlice]
  rw [← ha, List.drop_left, show b - pre.length = f.length by omega,
    List.take_left' rfl]

theorem pow256_32 : (256 : Nat) ^ 32 = 2 ^ 256 := by norm_num

theorem beBytes32_ne_nil (n : Nat) : beBytes 32 n ≠ [] := by
  intro h
  have := beBytes_length 32 n
  rw [h] at this
  simp at this

theorem parseHexInt?_word (n : Nat) (h : n < 2 ^ 256) :
    parseHexInt? ('0' :: 'x' :: hexOfBytes (beBytes 32 n)) = some n := by
  rw [parseHexInt?_hexOfBytes _ (beBytes_isBytes 32 n) (beBytes32_ne_nil n),
    beVal_beBytes, pow256_32, Nat.mod_eq_of_lt h]

theorem mkPackedData_length (m20 t20 : List Char) (ma ta mam tam fee : Nat)
    (hm : m20.length = 40) (ht : t20.length = 40) :
    (mkPackedData m20 t20 ma ta mam tam fee).length = 402 := by
  simp [mkPackedData, hexOfBytes_length, beBytes_length, hm, ht]

/-- Characterisation of `_parse_order_filled_log` on a payload laid out at
the decoder's own offsets: the side-inference truth table, the token id,
and the price, as functions of the encoded fields. -/
theorem parsePacked_view (txh oh0 oh1 addr ex : List Char)
    (hex : toChecksumAddress? addr = some ex) (li : Nat)
    (m20 t20 : List Char) (hm : m20.length = 40) (ht : t20.length = 40)
    (ma ta mam tam fee : Nat) (hma : ma < 2 ^ 256) (hta : ta < 2 ^ 256)
    (hmam : mam < 2 ^ 256) (htam : tam < 2 ^ 256) :
    (parseOrderFilledLog txh li
        ⟨addr, [oh0, oh1], mkPackedData m20 t20 ma ta mam tam fee, txh⟩).map tradeView =
      if ma = 0 then
        some ("BUY".data, '0' :: 'x' :: hexOfBytes (beBytes 32 ta),
          calculatePrice mam tam, mam, tam, 0)
      else if ta = 0 then
        some ("SELL".data, '0' :: 'x' :: hexOfBytes (beBytes 32 ma),
          calculatePrice tam mam, mam, tam, 0)
      else none := by
  have hdata := mkPackedData_length m20 t20 ma ta mam tam fee hm ht
  have sA : pySlice (mkPackedData m20 t20 ma ta mam tam fee) 82 146 =
      hexOfBytes (beBytes 32 ma) := by
    have e : mkPackedData m20 t20 ma ta mam tam fee =
        (['0', 'x'] ++ (m20 ++ t20)) ++
          (hexOfBytes (beBytes 32 ma) ++
            (hexOfBytes (beBytes 32 ta) ++ (hexOfBytes (beBytes 32 mam) ++
              (hexOfBytes (beBytes 32 tam) ++ hexOfBytes (beBytes 32 fee))))) := by
      simp [mkPackedData, List.append_assoc]
    rw [e]
    exact pySlice_field _ _ _ 82 146 (by simp [hm, ht])
      (by simp [hexOfBytes_length, beBytes_length])
  have sB : pySlice (mkPackedData m20 t20 ma ta mam tam fee) 146 210 =
      hexOfBytes (beBytes 32 ta) := by
    have e : mkPackedData m20 t20 ma ta mam tam fee =
        (['0', 'x'] ++ (m20 ++ (t20 ++ hexOfBytes (beBytes 32 ma)))) ++
          (hexOfBytes (beBytes 32 ta) ++ (hexOfBytes (beBytes 32 mam) ++
            (hexOfBytes (beBytes 32 tam) ++ hexOfBytes (beBytes 32 fee)))) := by
      simp [mkPackedData, List.append_assoc]
    rw [e]
    exact pySlice_field _ _ _ 146 210
      (by simp [hm, ht, hexOfBytes_length, beBytes_length])
      (by simp [hexOfBytes_length, beBytes_length])
  have sC : pySlice (mkPackedData m20 t20 ma ta mam tam fee) 210 274 =
      hexOfBytes (beBytes 32 mam) := by
    have e : mkPackedData m20 t20 ma ta mam tam fee =
        (['0', 'x'] ++ (m20 ++ (t20 ++ (hexOfBytes (beBytes 32 ma) ++
            hexOfBytes (beBytes 32 ta))))) ++
          (hexOfBytes (beBytes 32 mam) ++
            (hexOfBytes (beBytes 32 tam) ++ hexOfBytes (beBytes 32 fee))) := by
      simp [mkPackedData, List.append_assoc]
    rw [e]
    exact pySlice_field _ _ _ 210 274
      (by simp [hm, ht, hexOfBytes_length, beBytes_length])
      (by simp [hexOfBytes_length, beBytes_length])
  have sD : pySlice (mkPackedData m20 t20 ma ta mam tam fee) 274 338 =
      hexOfBytes (beBytes 32 tam) := by
    have e : mkPackedData m20 t20 ma ta mam tam fee =
        (['0', 'x'] ++ (m20 ++ (t20 ++ (hexOfBytes (beBytes 32 ma) ++
            (hexOfBytes (beBytes 32 ta) ++ hexOfBytes (beBytes 32 mam)))))) ++
          (hexOfBytes (beBytes 32 tam) ++ hexOfBytes (beBytes 32 fee)) := by
      simp [mkPackedData, List.append_assoc]
    rw [e]
    exact pySlice_field _ _ _ 274 338
      (by simp [hm, ht, hexOfBytes_length, beBytes_length])
      (by simp [hexOfBytes_length, beBytes_length])
  unfold parseOrderFilledLog
  rw [hex]
  simp only [List.length_cons, List.length_nil]
  rw [if_neg (by omega)]
  rw [if_neg (by rw [hdata]; omega)]
  simp only [parseHex, sA, sB, sC, sD]
  rw [if_neg (by rw [hdata]; omega)]
  rw [parseHexInt?_word mam hmam, parseHexInt?_word tam htam]
  simp only [sentinel_iff ma hma, sentinel_iff ta hta]
  split_ifs <;> simp [tradeView]

/-! Lemmas about the storage layer and the batch loop. -/

theorem storeTradesRow_err (db : DB) (t : Trade) :
    storeTradesRow db t = .error .attributeError := rfl

theorem storeTrades_eq (db : DB) (ts : List Trade) : storeTrades db ts = (db, 0) := by
  unfold storeTrades
  induction ts with
  | nil => rfl
  | cons t ts ih => rw [List.foldl_cons]; exact ih

theorem updateSyncState_eq (db : DB) (b c : Nat) : updateSyncState db b c = db := rfl

theorem getSyncState_eq (db : DB) (h : Nat) : getSyncState db h = (0, 0) := rfl

theorem enrichWithMarketInfo_eq (db : DB) (ts : List Trade) :
    enrichWithMarketInfo db ts = ts := by
  unfold enrichWithMarketInfo
  simp [tradeDictGet]

theorem runLoop_eq_aux (ch : ChainView) (tb : Nat) :
    ∀ (n : Nat) (db : DB) (bs tt te : Nat), tb - bs ≤ n →
      runLoop ch db bs tb tt te = (db, tt) := by
  intro n
  induction n with
  | zero =>
      intro db bs tt te hle
      rw [runLoop]
      simp [dif_neg (show ¬ bs < tb by omega)]
  | succ n ih =>
      intro db bs tt te hle
      rw [runLoop]
      by_cases h : bs < tb
      · simp only [dif_pos h, storeTrades_eq, enrichWithMarketInfo_eq, ite_self,
          updateSyncState_eq, Nat.add_zero]
        exact ih db (min (bs + 1000) tb + 1) tt te (by omega)
      · simp [dif_neg h]

theorem runLoop_eq (ch : ChainView) (db : DB) (bs tb tt te : Nat) :
    runLoop ch db bs tb tt te = (db, tt) :=
  runLoop_eq_aux ch tb (tb - bs) db bs tt te le_rfl

theorem runIndexer_eq (ch : ChainView) (db : DB) (fromBlock? toBlock? : Option Nat) :
    runIndexer ch db fromBlock? toBlock? =
      (db, ⟨fromBlock?.getD 0, toBlock?.getD ch.blockNumber, 0⟩) := by
  unfold runIndexer
  rw [getSyncState_eq]
  simp only [runLoop_eq]
  cases fromBlock? <;> rfl

theorem map_price_eq_view (o : Option Trade) :
    o.map (fun t => t.price) = (o.map tradeView).map (fun v => v.2.2.1) := by
  cases o <;> rfl

/-! Claim theorems. -/

/-- C3 (amended): for every decoded log in the decoder's field layout,
side inference follows the exact truth table — maker asset id equal to
the all-zero sentinel gives side BUY with `token_id = taker_asset_id`,
else taker asset id equal to the sentinel gives side SELL with
`token_id = maker_asset_id`, else no Trade is produced and no error is
raised — and the price is `calculatePrice`, i.e. the collateral-scaled
ratio computed in 28-significant-digit decimal arithmetic and rounded
half-even to 6 decimal places (0 on a zero divisor or quantize overflow),
not the exact ratio of the claim (see the counterexample). -/
theorem claim_C3_side_inference_truth_table (txh oh0 oh1 addr ex : List Char)
    (hex : toChecksumAddress? addr = some ex) (li : Nat)
    (m20 t20 : List Char) (hm : m20.length = 40) (ht : t20.length = 40)
    (ma ta mam tam fee : Nat) (hma : ma < 2 ^ 256) (hta : ta < 2 ^ 256)
    (hmam : mam < 2 ^ 256) (htam : tam < 2 ^ 256) :
    (parseOrderFilledLog txh li
        ⟨addr, [oh0, oh1], mkPackedData m20 t20 ma ta mam tam fee, txh⟩).map tradeView =
      if ma = 0 then
        some ("BUY".data, '0' :: 'x' :: hexOfBytes (beBytes 32 ta),
          calculatePrice mam tam, mam, tam, 0)
      else if ta = 0 then
        some ("SELL".data, '0' :: 'x' :: hexOfBytes (beBytes 32 ma),
          calculatePrice tam mam, mam, tam, 0)
      else none :=
  parsePacked_view txh oh0 oh1 addr ex hex li m20 t20 hm ht ma ta mam tam fee
    hma hta hmam htam

/-- Witness for C3: the spec's own end-to-end scenario (maker side is the
collateral, maker_amount 1000000, taker_amount 2000000) decodes to a BUY
with `token_id = taker_asset_id`; the 6-decimal half-even rounding of
(1000000/10^6)/2000000 = 5e-7 is 0. -/
theorem claim_C3_witness :
    (parseOrderFilledLog "0xtx".data 0
        { address := "0x4bfb41d5b3570defd03c39a9a4d8de6bd8b8982e".data,
          topics := ["t0".data, "0xoh".data],
          data := mkPackedData (List.replicate 40 'a') (List.replicate 40 'b')
            0 3 1000000 2000000 0,
          transactionHash := "0xtx".data }).map tradeView =
      some ("BUY".data, '0' :: 'x' :: hexOfBytes (beBytes 32 3), 0,
        1000000, 2000000, 0) := by
  rw [claim_C3_side_inference_truth_table "0xtx".data "t0".data "0xoh".data
    "0x4bfb41d5b3570defd03c39a9a4d8de6bd8b8982e".data
    "0x4bFb41d5B3570DeFd03C39a9A4D8dE6Bd8B8982E".data (by decide) 0
    (List.replicate 40 'a') (List.replicate 40 'b') (by decide) (by decide)
    0 3 1000000 2000000 0 (by norm_num) (by norm_num) (by norm_num) (by norm_num)]
  rw [if_pos rfl]
  have : calculatePrice 1000000 2000000 = 0 := by decide
  rw [this]

/-- C3 counterexample: a BUY log with maker_amount 1 and taker_amount 3
decodes to price 0 (the decoder rounds to 6 decimal places), whereas the
claim's formula `(maker_amount / 10^6) / taker_amount` equals
1/3000000 ≠ 0. -/
theorem claim_C3_counterexample :
    (parseOrderFilledLog "0xtx".data 0
        { address := "0x4bfb41d5b3570defd03c39a9a4d8de6bd8b8982e".data,
          topics := ["t0".data, "0xoh".data],
          data := mkPackedData (List.replicate 40 'a') (List.replicate 40 'b') 0 3 1 3 0,
          transactionHash := "0xtx".data }).map tradeView =
      some ("BUY".data, '0' :: 'x' :: hexOfBytes (beBytes 32 3), 0, 1, 3, 0) ∧
      (0 : ℚ) ≠ ((1 : ℚ) / 10 ^ 6) / 3 := by
  constructor
  · rw [parsePacked_view "0xtx".data "t0".data "0xoh".data
      "0x4bfb41d5b3570defd03c39a9a4d8de6bd8b8982e".data
      "0x4bFb41d5B3570DeFd03C39a9A4D8dE6Bd8B8982E".data (by decide) 0
      (List.replicate 40 'a') (List.replicate 40 'b') (by decide) (by decide)
      0 3 1 3 0 (by norm_num) (by norm_num) (by norm_num) (by norm_num)]
    rw [if_pos rfl]
    have : calculatePrice 1 3 = 0 := by decide
    rw [this]
  · norm_num

/-- C10: decoding a single log is total — it yields a Trade or `None` and
never propagates an exception (every fallible step is inside the decoder's
`try/except`) — and in particular a BUY log with a zero token amount
yields price 0 rather than a division error. -/
theorem claim_C10_decode_total_and_zero_amount_zero_price :
    (∀ (txh : List Char) (li : Nat) (log : RawLog),
        parseOrderFilledLog txh li log = none ∨
          ∃ t, parseOrderFilledLog txh li log = some t) ∧
      (∀ (txh oh0 oh1 addr ex : List Char), toChecksumAddress? addr = some ex →
        ∀ (li : Nat) (m20 t20 : List Char), m20.length = 40 → t20.length = 40 →
          ∀ (ta mam : Nat), ta < 2 ^ 256 → mam < 2 ^ 256 →
            (parseOrderFilledLog txh li
                ⟨addr, [oh0, oh1], mkPackedData m20 t20 0 ta mam 0 0, txh⟩).map
              (fun t => t.price) = some 0) := by
  constructor
  · intro txh li log
    cases h : parseOrderFilledLog txh li log with
    | none => exact Or.inl rfl
    | some t => exact Or.inr ⟨t, rfl⟩
  · intro txh oh0 oh1 addr ex hex li m20 t20 hm ht ta mam hta hmam
    have hv := parsePacked_view txh oh0 oh1 addr ex hex li m20 t20 hm ht
      0 ta mam 0 0 (by norm_num) hta hmam (by norm_num)
    rw [if_pos rfl] at hv
    rw [map_price_eq_view, hv]
    rfl

/-- Witness for C10: a concrete BUY log with taker_amount 0 decodes to
price 0. -/
theorem claim_C10_witness :
    (parseOrderFilledLog "0xtx".data 0
        { address := "0x4bfb41d5b3570defd03c39a9a4d8de6bd8b8982e".data,
          topics := ["t0".data, "0xoh".data],
          data := mkPackedData (List.replicate 40 'a') (List.replicate 40 'b') 0 5 7 0 0,
          transactionHash := "0xtx".data }).map (fun t => t.price) = some 0 :=
  claim_C10_decode_total_and_zero_amount_zero_price.2 "0xtx".data "t0".data "0xoh".data
    "0x4bfb41d5b3570defd03c39a9a4d8de6bd8b8982e".data
    "0x4bFb41d5B3570DeFd03C39a9A4D8dE6Bd8B8982E".data (by decide) 0
    (List.replicate 40 'a') (List.replicate 40 'b') (by decide) (by decide)
    5 7 (by norm_num) (by norm_num)

/-- C4: the decoder reads the maker from `data[2:42]` and the taker from
`data[42:82]`.  Under the 8-word layout its own comment documents
(`orderHash, maker, taker, ...` as 32-byte slots), those offsets fall
inside the order-hash slot, not on the low 20 bytes of the maker/taker
slots: on the concrete payload below (order hash `0x11...11`, maker word
`0x2222222222222222 * 2^192`, everything else 0) the decoder produces a
trade whose maker address bytes are twenty `0x11` bytes — the high bytes
of the order-hash slot — while the low 20 bytes of the maker slot are all
zero, and whose taker address straddles two slots. -/
theorem claim_C4_maker_offset_reads_order_hash_slot :
    ((parseOrderFilledLog "0xtx".data 0
        { address := "0x4bfb41d5b3570defd03c39a9a4d8de6bd8b8982e".data,
          topics := ["t0".data, "0xoh".data],
          data := mkWordData
            0x1111111111111111111111111111111111111111111111111111111111111111
            0x2222222222222222000000000000000000000000000000000000000000000000
            0 0 0 0 0 0,
          transactionHash := "0xtx".data }).map
      fun t => (addrValue t.maker, addrValue t.taker)) =
      some (some (List.replicate 20 17),
        some (List.replicate 12 17 ++ List.replicate 8 34)) ∧
      List.replicate 20 17 ≠
        ((beBytes 32
          0x2222222222222222000000000000000000000000000000000000000000000000).drop 12) := by
  constructor
  · decide
  · decide

/-- C2: no execution of the indexer ever modifies the database — in
particular the sync checkpoint is not advanced even after a batch whose
storage step succeeded, because `update_sync_state` INSERTs into
`sync_state` columns (`total_events`, `last_updated`) that `init_db`'s
schema does not define and the `OperationalError` is swallowed; the
summary's inserted-trade count is always 0. -/
theorem claim_C2_checkpoint_never_advances (ch : ChainView) (db : DB)
    (fromBlock? toBlock? : Option Nat) :
    (runIndexer ch db fromBlock? toBlock?).1 = db ∧
      (runIndexer ch db fromBlock? toBlock?).2.tradesInserted = 0 := by
  rw [runIndexer_eq]
  exact ⟨rfl, rfl⟩

/-- C5: `store_trades` never persists anything (it calls `.get` on frozen
`Trade` dataclass instances and its INSERT targets `events` columns that
do not exist), and the decoder emits an out-of-range price as a normal
trade with no flag: maker_amount 10^13 against taker_amount 10^6 yields
price 10 > 1. -/
theorem claim_C5_no_price_validation_and_nothing_persisted :
    (∀ (db : DB) (ts : List Trade),
        (storeTrades db ts).1.trades = db.trades ∧ (storeTrades db ts).2 = 0) ∧
      (parseOrderFilledLog "0xtx".data 0
          { address := "0x4bfb41d5b3570defd03c39a9a4d8de6bd8b8982e".data,
            topics := ["t0".data, "0xoh".data],
            data := mkPackedData (List.replicate 40 'a') (List.replicate 40 'b')
              0 3 10000000000000 1000000 0,
            transactionHash := "0xtx".data }).map tradeView =
        some ("BUY".data, '0' :: 'x' :: hexOfBytes (beBytes 32 3), 10,
          10000000000000, 1000000, 0) ∧
      ¬ ((10 : ℚ) ≤ 1) := by
  refine ⟨fun db ts => ?_, ?_, by norm_num⟩
  · rw [storeTrades_eq]
    exact ⟨rfl, rfl⟩
  · rw [parsePacked_view "0xtx".data "t0".data "0xoh".data
      "0x4bfb41d5b3570defd03c39a9a4d8de6bd8b8982e".data
      "0x4bFb41d5B3570DeFd03C39a9A4D8dE6Bd8B8982E".data (by decide) 0
      (List.replicate 40 'a') (List.replicate 40 'b') (by decide) (by decide)
      0 3 10000000000000 1000000 0 (by norm_num) (by norm_num) (by norm_num) (by norm_num)]
    rw [if_pos rfl]
    have : calculatePrice 10000000000000 1000000 = 10 := by decide
    rw [this]

/-- C6: ingesting any trade list — once or twice — stores zero rows and
leaves the `trades` table untouched: each per-trade insert raises
(`.get` on a dataclass, then an INSERT into nonexistent `events` columns)
and is skipped, so re-ingestion equality holds only degenerately, not via
the `UNIQUE(tx_hash, log_index)` dedup the claim describes. -/
theorem claim_C6_reingestion_degenerate (db : DB) (ts : List Trade) :
    storeTrades ((storeTrades db ts).1) ts = storeTrades db ts ∧
      storeTrades db ts = (db, 0) := by
  constructor
  · simp [storeTrades_eq]
  · exact storeTrades_eq db ts

/-- C7: the persisted checkpoint is monotonically non-decreasing across
every checkpoint update and every indexer run — degenerately so, because
no write to `sync_state` ever succeeds, so the stored value never changes
at all. -/
theorem claim_C7_checkpoint_monotone (db : DB) (b c : Nat) (ch : ChainView)
    (fromBlock? toBlock? : Option Nat) :
    lastBlockOf db ≤ lastBlockOf (updateSyncState db b c) ∧
      lastBlockOf db ≤ lastBlockOf ((runIndexer ch db fromBlock? toBlock?).1) := by
  rw [updateSyncState_eq, runIndexer_eq]
  exact ⟨le_rfl, le_rfl⟩

/-- C8: `get_sync_state` returns `(0, 0)` — genesis — for every database
state and every chain height: its SELECT references the nonexistent
`sync_state.total_events` column, the `OperationalError` is swallowed,
and the handler returns `(0, 0)`; even the intended first-run fallback
(`max(current_block - 1000, 0)`, a hardcoded offset) is unreachable. -/
theorem claim_C8_sync_state_read_always_genesis (db : DB) (currentBlock : Nat) :
    getSyncState db currentBlock = (0, 0) :=
  getSyncState_eq db currentBlock

end PolyMindSpec
